import Mathlib

/-
Verification of the RAG document-assistant repository (app.py,
document_processor.py, vector_store.py).

External services (the langchain text splitter, the PDF/DOCX parsers, the
embedding model, the LLM and the FAISS similarity search) are modelled as
parameters of the embedded functions; the orchestration logic written in the
repository itself is translated directly.  Relevance scores are modelled as
rationals (the source compares Python floats with `<` only; no arithmetic is
performed on them).  Strings are Lean `String`s; Python `os.path.basename`
and `str.endswith` are modelled on the character lists for relative POSIX
paths, which is the only form the program produces.
-/

/-- Python's `re` whitespace class `\s`, restricted to the ASCII whitespace
characters (space, tab, newline, carriage return, vertical tab, form feed),
which is what the documents in scope contain. -/
def isPySpace (c : Char) : Bool :=
  c = ' ' || c = '\t' || c = '\n' || c = '\x0d' || c = '\x0b' || c = '\x0c'

/-- `re.sub(r"\s+", " ", text)` from `clean_text` (document_processor.py):
every maximal run of whitespace characters is replaced by a single space. -/
def subWS : List Char → List Char
  | [] => []
  | c :: cs =>
    if isPySpace c then
      match subWS cs with
      | [] => [' ']
      | d :: rest => if isPySpace d then d :: rest else ' ' :: d :: rest
    else c :: subWS cs

/-- Python `str.strip()` on a character list: drop whitespace from the front,
then from the back. -/
def pyStrip (l : List Char) : List Char :=
  ((l.dropWhile isPySpace).reverse.dropWhile isPySpace).reverse

/-- `clean_text` from document_processor.py:
`re.sub(r"\s+", " ", text).strip()`. -/
def clean_text (s : String) : String :=
  ⟨pyStrip (subWS s.data)⟩

/-- Metadata attached by the langchain loaders: the source path, and for PDFs
a page number. -/
structure DocMetadata where
  source : Option String
  page : Option Nat
deriving DecidableEq

/-- A langchain `Document`: page content plus metadata. -/
structure Document where
  page_content : String
  metadata : DocMetadata
deriving DecidableEq

/-- The FAISS store as far as this program observes it: the docstore holding
every indexed entry's document, in insertion order. -/
structure VectorStore where
  docstore : List Document
deriving DecidableEq

/-- Modelled from the spec: `FAISS.from_documents` is external library code.
On a non-empty chunk list it builds a fresh index holding exactly those
chunks; on an empty chunk list it fails (spec 4.4: build "Fails with
IndexBuildError if chunks is empty"; the real call raises on `[]`). -/
def FAISS_from_documents (chunks : List Document) : Except String VectorStore :=
  match chunks with
  | [] => .error "IndexBuildError"
  | c :: cs => .ok ⟨c :: cs⟩

/-- `db.add_documents(new_chunked_docs)`: appends the new entries to the
existing docstore; no deduplication. -/
def FAISS_add_documents (db : VectorStore) (chunks : List Document) : VectorStore :=
  ⟨db.docstore ++ chunks⟩

/-- `os.path.join` for a folder and a relative file name. -/
def pathJoin (folder file : String) : String :=
  folder ++ "/" ++ file

/-- Python `str.endswith`, on the underlying character lists. -/
def endswith (s suf : String) : Bool :=
  suf.data.isSuffixOf s.data

/-- `load_documents` from document_processor.py: walk the folder listing in
order; `.pdf` files go to the PDF loader, `.docx` files to the DOCX loader,
all other files are skipped; the per-file record lists are concatenated in
listing order.  A loader failure (modelled by `Except.error`) propagates and
aborts the whole load, exactly as an uncaught Python exception would. -/
def load_documents (parsePdf parseDocx : String → Except String (List Document))
    (folder_path : String) : List String → Except String (List Document)
  | [] => .ok []
  | f :: fs =>
    if endswith f ".pdf" then
      match parsePdf (pathJoin folder_path f) with
      | .error e => .error e
      | .ok docs =>
        match load_documents parsePdf parseDocx folder_path fs with
        | .error e => .error e
        | .ok rest => .ok (docs ++ rest)
    else if endswith f ".docx" then
      match parseDocx (pathJoin folder_path f) with
      | .error e => .error e
      | .ok docs =>
        match load_documents parsePdf parseDocx folder_path fs with
        | .error e => .error e
        | .ok rest => .ok (docs ++ rest)
    else
      load_documents parsePdf parseDocx folder_path fs

/-- Modelled from the spec: `RecursiveCharacterTextSplitter.split_documents`,
the external langchain splitter called by `chunk_documents`, is not part of
this repository.  Its text-splitting algorithm is the parameter `splitText`;
per the spec it produces one chunk per split piece and copies the parent
document record's metadata unchanged onto every chunk. -/
def split_documents (splitText : String → List String)
    (documents : List Document) : List Document :=
  documents.flatMap
    (fun d => (splitText d.page_content).map (fun t => Document.mk t d.metadata))

/-- `chunk_documents` from document_processor.py: split the documents with
the external splitter, then rewrite each chunk's `page_content` with
`clean_text` (the source's final loop mutates only that field). -/
def chunk_documents (splitText : String → List String)
    (documents : List Document) : List Document :=
  let chunks := split_documents splitText documents
  chunks.map (fun c => Document.mk (clean_text c.page_content) c.metadata)

/-- `RELEVANCE_THRESHOLD = 0.7` from app.py. -/
def RELEVANCE_THRESHOLD : ℚ := 7 / 10

/-- The fixed message returned by `get_answer` when nothing passes the
relevance filter. -/
def notFoundMsg : String :=
  "I\x27m sorry, but I couldn\x27t find any relevant information in the documents for your question."

/-- The list comprehension in `get_answer`:
`[doc for doc, score in retrieved_docs_with_scores if score < RELEVANCE_THRESHOLD]`. -/
def relevantDocs (retrieved : List (Document × ℚ)) : List Document :=
  retrieved.filterMap (fun p => if p.2 < RELEVANCE_THRESHOLD then some p.1 else none)

/-- `get_answer` from app.py.  `search` stands for
`db.similarity_search_with_relevance_scores` and `llm` for the prompt/LLM
chain invocation (`(prompt | llm).invoke(...).content`), both external. -/
def get_answer (search : String → Nat → List (Document × ℚ))
    (llm : String → String → String) (query : String) (k : Nat) :
    String × List Document :=
  let retrieved := search query k
  let relevant_docs := relevantDocs retrieved
  match relevant_docs with
  | [] => (notFoundMsg, [])
  | d :: ds =>
    let context := String.intercalate "\n\n" ((d :: ds).map Document.page_content)
    (llm context query, d :: ds)

/-- `os.path.basename` for the POSIX relative paths this program builds:
the part of the string after the last `/`. -/
def basename (s : String) : String :=
  ⟨s.data.foldl (fun acc c => if c = '/' then [] else acc ++ [c]) []⟩

/-- `get_indexed_documents` from app.py: `None` gives `[]`; otherwise take
the set of the docstore entries' `source` metadata (defaulting to
`"Unknown"`), then sort the basenames.  Python's `set` is modelled by
`List.dedup` (same distinct elements; the order does not matter because the
result is sorted). -/
def get_indexed_documents (db : Option VectorStore) : List String :=
  match db with
  | none => []
  | some db =>
    let sources := (db.docstore.map (fun d => d.metadata.source.getD "Unknown")).dedup
    List.insertionSort (· ≤ ·) (sources.map basename)

/-- `BASE_DOCS_FOLDER` from app.py. -/
def BASE_DOCS_FOLDER : String := "documents"

/-- `UPLOADED_DOCS_FOLDER` from app.py. -/
def UPLOADED_DOCS_FOLDER : String := "uploaded_docs"

/-- Result of `create_or_load_vector_store`: the store handed to the caller
and the store persisted on disk at `VECTOR_STORE_PATH` afterwards. -/
structure StoreResult where
  result : Option VectorStore
  persisted : Option VectorStore
deriving DecidableEq

/-- `create_or_load_vector_store` from app.py.  `persisted` is the store on
disk at `VECTOR_STORE_PATH` (`none` when `os.path.exists` is false); `base`
is the `BASE_DOCS_FOLDER` directory (`none` when missing, otherwise its
`os.listdir` listing).  The branch structure follows the source: load when a
persisted store exists; return `None` when the base folder is missing or
empty; return `None` when `load_documents` yields no records; otherwise
chunk, build, save and return.  A build failure (zero chunks from the loaded
records) propagates like the uncaught exception it is in the program. -/
def create_or_load_vector_store (persisted : Option VectorStore)
    (base : Option (List String))
    (parsePdf parseDocx : String → Except String (List Document))
    (splitText : String → List String) : Except String StoreResult :=
  match persisted with
  | some db => .ok ⟨some db, some db⟩
  | none =>
    match base with
    | none => .ok ⟨none, none⟩
    | some [] => .ok ⟨none, none⟩
    | some (f :: fs) =>
      match load_documents parsePdf parseDocx BASE_DOCS_FOLDER (f :: fs) with
      | .error e => .error e
      | .ok docs =>
        if docs.isEmpty then .ok ⟨none, none⟩
        else
          let chunked_docs := chunk_documents splitText docs
          match FAISS_from_documents chunked_docs with
          | .error e => .error e
          | .ok db => .ok ⟨some db, some db⟩

/-- The sidebar merge flow of app.py (lines 132-146): load the uploaded
folder; if nothing was loaded the store is unchanged; otherwise chunk and
either `add_documents` to the existing store or build a fresh one, then
save. -/
def merge_new_documents (db : Option VectorStore) (uploadedListing : List String)
    (parsePdf parseDocx : String → Except String (List Document))
    (splitText : String → List String) : Except String (Option VectorStore) :=
  match load_documents parsePdf parseDocx UPLOADED_DOCS_FOLDER uploadedListing with
  | .error e => .error e
  | .ok new_docs =>
    if new_docs.isEmpty then .ok db
    else
      let new_chunked_docs := chunk_documents splitText new_docs
      match db with
      | some db => .ok (some (FAISS_add_documents db new_chunked_docs))
      | none =>
        match FAISS_from_documents new_chunked_docs with
        | .error e => .error e
        | .ok db2 => .ok (some db2)

/-- The spec's wording of the assembled context string: the surviving chunks'
texts in the search's relevance order, consecutive texts separated by one
blank line. -/
def contextJoinSpec : List String → String
  | [] => ""
  | t :: ts => ts.foldl (fun acc s => acc ++ "\n\n" ++ s) t

/-- A concrete document used in closed witness statements. -/
def docA : Document := ⟨"alpha text", ⟨some "documents/a.pdf", some 0⟩⟩

/-- A second concrete document used in closed witness statements. -/
def docB : Document := ⟨"beta text", ⟨some "uploaded_docs/b.pdf", none⟩⟩

/-- A concrete splitter (identity split) used in closed witness statements. -/
def splitOne : String → List String := fun t => [t]

theorem relevantDocs_eq_filter (l : List (Document × ℚ)) :
    relevantDocs l
      = (l.filter (fun p => decide (p.2 < RELEVANCE_THRESHOLD))).map Prod.fst := by
  induction l with
  | nil => rfl
  | cons p l ih =>
    by_cases h : p.2 < RELEVANCE_THRESHOLD
    · simp [relevantDocs, List.filterMap_cons, List.filter_cons, h] at ih ⊢
      exact ih
    · simp [relevantDocs, List.filterMap_cons, List.filter_cons, h] at ih ⊢
      exact ih

theorem get_answer_snd (search : String → Nat → List (Document × ℚ))
    (llm : String → String → String) (query : String) (k : Nat) :
    (get_answer search llm query k).2 = relevantDocs (search query k) := by
  unfold get_answer
  rcases h : relevantDocs (search query k) with _ | ⟨d, ds⟩ <;> simp [h]

/-- C1: the answer operation keeps exactly the retrieved pairs whose score is
strictly below the relevance threshold (lower-is-better direction); a pair
whose score equals the threshold is filtered out. -/
theorem C1_answer_filter_strictly_below_threshold
    (search : String → Nat → List (Document × ℚ)) (llm : String → String → String)
    (query : String) (k : Nat) (d : Document) :
    (get_answer search llm query k).2
        = ((search query k).filter (fun p => decide (p.2 < RELEVANCE_THRESHOLD))).map Prod.fst
      ∧ relevantDocs [(d, RELEVANCE_THRESHOLD)] = [] := by
  constructor
  · rw [get_answer_snd, relevantDocs_eq_filter]
  · simp [relevantDocs]

theorem relevantDocs_eq_nil_of_none_passes {l : List (Document × ℚ)}
    (h : ∀ p ∈ l, ¬ p.2 < RELEVANCE_THRESHOLD) : relevantDocs l = [] := by
  unfold relevantDocs
  rw [List.filterMap_eq_nil_iff]
  intro p hp
  rw [if_neg (h p hp)]

/-- C2: when no retrieved pair passes the relevance threshold, `get_answer`
returns the fixed not-found message with an empty citation list, and the
result does not depend on the language model at all (the LLM is not
consulted). -/
theorem C2_no_relevant_fixed_message_no_llm
    (search : String → Nat → List (Document × ℚ)) (query : String) (k : Nat)
    (h : ∀ p ∈ search query k, ¬ p.2 < RELEVANCE_THRESHOLD) :
    ∀ llm : String → String → String,
      get_answer search llm query k = (notFoundMsg, []) := by
  intro llm
  simp only [get_answer]
  rw [relevantDocs_eq_nil_of_none_passes h]

theorem C2_no_relevant_fixed_message_no_llm_witness :
    (∀ p ∈ (fun (_ : String) (_ : Nat) => [(docA, RELEVANCE_THRESHOLD)]) "What color is the sky?" 4,
        ¬ p.2 < RELEVANCE_THRESHOLD)
    ∧ ∀ llm : String → String → String,
        get_answer (fun _ _ => [(docA, RELEVANCE_THRESHOLD)]) llm "What color is the sky?" 4
          = (notFoundMsg, []) :=
  ⟨by simp, C2_no_relevant_fixed_message_no_llm _ _ _ (by simp)⟩

theorem intercalate_eq_contextJoinSpec (ts : List String) :
    String.intercalate "\n\n" ts = contextJoinSpec ts := by
  rcases ts with _ | ⟨t, ts⟩
  · rfl
  · show String.intercalate.go t "\n\n" ts = _
    unfold contextJoinSpec
    induction ts generalizing t with
    | nil => rfl
    | cons a as ih => simpa [String.intercalate.go] using ih (t ++ "\n\n" ++ a)

/-- C6: for a non-empty surviving set, the context handed to the language
model is the surviving chunks' texts in relevance order, separated by exactly
one blank line between consecutive chunks. -/
theorem C6_context_blank_line_separated
    (search : String → Nat → List (Document × ℚ)) (query : String) (k : Nat)
    (d : Document) (ds : List Document)
    (h : relevantDocs (search query k) = d :: ds) :
    ∀ llm : String → String → String,
      get_answer search llm query k
        = (llm (contextJoinSpec ((d :: ds).map Document.page_content)) query, d :: ds) := by
  intro llm
  rw [← intercalate_eq_contextJoinSpec]
  simp only [get_answer]
  rw [h]

theorem C6_context_blank_line_separated_witness :
    (relevantDocs ((fun (_ : String) (_ : Nat) => [(docA, RELEVANCE_THRESHOLD - 1), (docB, RELEVANCE_THRESHOLD - 1)]) "q" 4)
        = [docA, docB])
    ∧ get_answer (fun _ _ => [(docA, RELEVANCE_THRESHOLD - 1), (docB, RELEVANCE_THRESHOLD - 1)])
          (fun c _ => c) "q" 4
        = (contextJoinSpec [docA.page_content, docB.page_content], [docA, docB]) :=
  ⟨by simp [relevantDocs],
   C6_context_blank_line_separated _ "q" 4 docA [docB] (by simp [relevantDocs]) (fun c _ => c)⟩

/-- A concrete PDF loader that fails on one path, used in closed witness and
counterexample statements. -/
def failPdf : String → Except String (List Document) :=
  fun p => if p = "documents/bad.pdf" then .error "parse failure" else .ok [docA]

/-- C7 counterexample: a folder whose first file fails to parse.  The load
returns the loader's error; it does not skip the bad file and return the
records of the remaining file (which would be `.ok [docA]`). -/
theorem C7_counterexample_failure_not_isolated :
    load_documents failPdf (fun _ => .ok []) "documents" ["bad.pdf", "good.pdf"]
        = .error "parse failure"
    ∧ load_documents failPdf (fun _ => .ok []) "documents" ["good.pdf"]
        = .ok [docA] := by
  constructor <;> rfl

/-- C7 (amended): a parse failure on any supported file aborts the entire
folder load; the error propagates and no records are returned. -/
theorem C7_amended_single_failure_aborts_load
    (parsePdf parseDocx : String → Except String (List Document))
    (folder : String) (listing : List String) (f : String) (e : String)
    (hf : f ∈ listing)
    (hfail : (endswith f ".pdf" = true ∧ parsePdf (pathJoin folder f) = .error e)
           ∨ (endswith f ".pdf" = false ∧ endswith f ".docx" = true
                ∧ parseDocx (pathJoin folder f) = .error e)) :
    ∃ e', load_documents parsePdf parseDocx folder listing = .error e' := by
  induction listing with
  | nil => cases hf
  | cons g gs ih =>
    rcases List.mem_cons.mp hf with rfl | hmem
    · rcases hfail with ⟨hpdf, herr⟩ | ⟨hnpdf, hdocx, herr⟩
      · exact ⟨e, by rw [load_documents, if_pos hpdf, herr]⟩
      · exact ⟨e, by rw [load_documents, if_neg (by simp [hnpdf]), if_pos hdocx, herr]⟩
    · obtain ⟨e', he'⟩ := ih hmem
      rw [load_documents]
      by_cases hg : endswith g ".pdf"
      · rw [if_pos hg]
        rcases hp : parsePdf (pathJoin folder g) with ep | docs
        · exact ⟨ep, rfl⟩
        · rw [he']; exact ⟨e', rfl⟩
      · rw [if_neg hg]
        by_cases hgd : endswith g ".docx"
        · rw [if_pos hgd]
          rcases hp : parseDocx (pathJoin folder g) with ep | docs
          · exact ⟨ep, rfl⟩
          · rw [he']; exact ⟨e', rfl⟩
        · rw [if_neg hgd]; exact ⟨e', he'⟩

theorem C7_amended_single_failure_aborts_load_witness :
    ("bad.pdf" ∈ ["good.docx", "bad.pdf", "good.pdf"]
      ∧ endswith "bad.pdf" ".pdf" = true
      ∧ failPdf (pathJoin "documents" "bad.pdf") = .error "parse failure")
    ∧ ∃ e', load_documents failPdf (fun _ => .ok [docB]) "documents"
              ["good.docx", "bad.pdf", "good.pdf"] = .error e' :=
  ⟨⟨by decide, by decide, by rfl⟩,
   C7_amended_single_failure_aborts_load failPdf (fun _ => .ok [docB]) "documents"
     ["good.docx", "bad.pdf", "good.pdf"] "bad.pdf" "parse failure" (by decide)
     (Or.inl ⟨by decide, by rfl⟩)⟩

/-- C3 counterexample: no persisted index, and the base folder exists and is
non-empty but holds only an unsupported file, so no records load.  The claim
requires a fresh index to be built, persisted and returned; the code returns
None and persists nothing. -/
theorem C3_counterexample_nonempty_folder_returns_none :
    create_or_load_vector_store none (some ["notes.txt"])
        (fun _ => .ok [docA]) (fun _ => .ok [docA]) splitOne
      = .ok ⟨none, none⟩ := by
  rfl

/-- C3 (amended): `create_or_load_vector_store` returns the loaded persisted
index when one exists; with no persisted index it returns None when the base
folder is missing or empty, and also when the folder is non-empty but zero
document records load from it; when records load and chunking yields at
least one chunk it builds a fresh index, persists it and returns it; when
records load but chunking yields zero chunks the index build fails and the
error propagates (the real `FAISS.from_documents` raises on an empty list),
so nothing is persisted or returned. -/
theorem C3_amended_get_or_create
    (persisted : Option VectorStore) (base : Option (List String))
    (parsePdf parseDocx : String → Except String (List Document))
    (splitText : String → List String) :
    (∀ db, persisted = some db →
        create_or_load_vector_store persisted base parsePdf parseDocx splitText
          = .ok ⟨some db, some db⟩)
    ∧ (persisted = none → base = none ∨ base = some [] →
        create_or_load_vector_store persisted base parsePdf parseDocx splitText
          = .ok ⟨none, none⟩)
    ∧ (∀ f fs docs, persisted = none → base = some (f :: fs) →
        load_documents parsePdf parseDocx BASE_DOCS_FOLDER (f :: fs) = .ok docs →
        (docs = [] →
            create_or_load_vector_store persisted base parsePdf parseDocx splitText
              = .ok ⟨none, none⟩)
        ∧ (∀ e, docs ≠ [] →
            FAISS_from_documents (chunk_documents splitText docs) = .error e →
            create_or_load_vector_store persisted base parsePdf parseDocx splitText
              = .error e)
        ∧ (∀ db, docs ≠ [] →
            FAISS_from_documents (chunk_documents splitText docs) = .ok db →
            create_or_load_vector_store persisted base parsePdf parseDocx splitText
              = .ok ⟨some db, some db⟩)) := by
  refine ⟨?_, ?_, ?_⟩
  · rintro db rfl; rfl
  · rintro rfl (rfl | rfl) <;> rfl
  · rintro f fs docs rfl rfl hload
    refine ⟨?_, ?_, ?_⟩
    · rintro rfl
      simp only [create_or_load_vector_store]
      rw [hload]
      rfl
    · intro e hne hb
      rcases docs with _ | ⟨d0, ds0⟩
      · cases hne rfl
      · simp only [create_or_load_vector_store]
        rw [hload]
        show (match FAISS_from_documents (chunk_documents splitText (d0 :: ds0)) with
              | .error e => (.error e : Except String StoreResult)
              | .ok db => .ok ⟨some db, some db⟩) = .error e
        rw [hb]
    · intro db hne hb
      rcases docs with _ | ⟨d0, ds0⟩
      · cases hne rfl
      · simp only [create_or_load_vector_store]
        rw [hload]
        show (match FAISS_from_documents (chunk_documents splitText (d0 :: ds0)) with
              | .error e => (.error e : Except String StoreResult)
              | .ok db => .ok ⟨some db, some db⟩) = .ok ⟨some db, some db⟩
        rw [hb]

theorem C3_amended_get_or_create_witness :
    (load_documents (fun _ => .ok [docA]) (fun _ => .ok [docB]) BASE_DOCS_FOLDER ["a.pdf"]
        = .ok [docA])
    ∧ ([docA] ≠ ([] : List Document))
    ∧ (FAISS_from_documents (chunk_documents splitOne [docA])
        = .ok ⟨[Document.mk "alpha text" docA.metadata]⟩)
    ∧ create_or_load_vector_store none (some ["a.pdf"])
          (fun _ => .ok [docA]) (fun _ => .ok [docB]) splitOne
        = .ok ⟨some ⟨[Document.mk "alpha text" docA.metadata]⟩,
                some ⟨[Document.mk "alpha text" docA.metadata]⟩⟩ :=
  ⟨by rfl, by simp, by rfl,
   ((C3_amended_get_or_create none (some ["a.pdf"])
        (fun _ => .ok [docA]) (fun _ => .ok [docB]) splitOne).2.2
      "a.pdf" [] [docA] rfl rfl (by rfl)).2.2
     ⟨[Document.mk "alpha text" docA.metadata]⟩ (by simp) (by rfl)⟩

theorem mem_get_indexed_documents (db : VectorStore) (c : Document)
    (hc : c ∈ db.docstore) :
    basename (c.metadata.source.getD "Unknown") ∈ get_indexed_documents (some db) := by
  show basename (c.metadata.source.getD "Unknown")
      ∈ List.insertionSort (· ≤ ·)
          (((db.docstore.map (fun d => d.metadata.source.getD "Unknown")).dedup).map basename)
  rw [List.mem_insertionSort]
  exact List.mem_map_of_mem _ (List.mem_dedup.mpr (List.mem_map_of_mem _ hc))

/-- C4: merging a folder of new documents into an existing index appends the
new chunks without deduplication, so the entry count is exactly the old count
plus the number of new chunks, and the source filenames of every old and new
entry appear in the indexed-sources listing. -/
theorem C4_merge_appends_without_dedup
    (d : VectorStore) (uploadedListing : List String)
    (parsePdf parseDocx : String → Except String (List Document))
    (splitText : String → List String) (docs : List Document)
    (hload : load_documents parsePdf parseDocx UPLOADED_DOCS_FOLDER uploadedListing
        = .ok docs) :
    ∃ d', merge_new_documents (some d) uploadedListing parsePdf parseDocx splitText
            = .ok (some d')
      ∧ d'.docstore = d.docstore ++ chunk_documents splitText docs
      ∧ d'.docstore.length
          = d.docstore.length + (chunk_documents splitText docs).length
      ∧ ∀ c ∈ d.docstore ++ chunk_documents splitText docs,
          basename (c.metadata.source.getD "Unknown")
            ∈ get_indexed_documents (some d') := by
  rcases docs with _ | ⟨d0, ds0⟩
  · refine ⟨d, ?_, by simp [chunk_documents, split_documents], by simp [chunk_documents, split_documents], ?_⟩
    · simp only [merge_new_documents]
      rw [hload]
      rfl
    · intro c hc
      refine mem_get_indexed_documents d c ?_
      simpa [chunk_documents, split_documents] using hc
  · refine ⟨FAISS_add_documents d (chunk_documents splitText (d0 :: ds0)), ?_, rfl,
      by simp [FAISS_add_documents], ?_⟩
    · simp only [merge_new_documents]
      rw [hload]
      rfl
    · intro c hc
      exact mem_get_indexed_documents _ c hc

theorem C4_merge_appends_without_dedup_witness :
    (load_documents (fun _ => .ok [docB]) (fun _ => .ok []) UPLOADED_DOCS_FOLDER ["b.pdf"]
        = .ok [docB])
    ∧ ∃ d', merge_new_documents (some ⟨[docA]⟩) ["b.pdf"]
              (fun _ => .ok [docB]) (fun _ => .ok []) splitOne = .ok (some d')
        ∧ d'.docstore = [docA] ++ chunk_documents splitOne [docB]
        ∧ d'.docstore.length
            = ([docA] : List Document).length + (chunk_documents splitOne [docB]).length
        ∧ ∀ c ∈ ([docA] : List Document) ++ chunk_documents splitOne [docB],
            basename (c.metadata.source.getD "Unknown")
              ∈ get_indexed_documents (some d') :=
  ⟨by rfl,
   C4_merge_appends_without_dedup ⟨[docA]⟩ ["b.pdf"]
     (fun _ => .ok [docB]) (fun _ => .ok []) splitOne [docB] (by rfl)⟩

/-- A document whose source path shares its basename with `docB2`. -/
def docA2 : Document := ⟨"alpha text", ⟨some "documents/x.pdf", some 0⟩⟩

/-- A document whose source path shares its basename with `docA2`. -/
def docB2 : Document := ⟨"beta text", ⟨some "uploaded_docs/x.pdf", none⟩⟩

/-- C8 counterexample: two distinct indexed source paths that share a
basename.  Deduplication happens on the full paths before basenames are
taken, so the listing contains the filename twice. -/
theorem C8_counterexample_duplicate_basenames :
    ¬ (get_indexed_documents (some ⟨[docA2, docB2]⟩)).Nodup := by
  rw [show get_indexed_documents (some ⟨[docA2, docB2]⟩)
        = List.insertionSort (· ≤ ·)
            ((([docA2, docB2].map (fun d => d.metadata.source.getD "Unknown")).dedup).map basename)
      from rfl]
  rw [(List.perm_insertionSort (· ≤ ·)
        ((([docA2, docB2].map (fun d => d.metadata.source.getD "Unknown")).dedup).map basename)).nodup_iff]
  decide

/-- C8 (amended): the indexed-sources listing is sorted ascending and is a
permutation of the basenames of the deduplicated full source paths; duplicate
basenames remain possible when distinct paths share one. -/
theorem C8_amended_listing_sorted_perm (db : VectorStore) :
    (get_indexed_documents (some db)).Sorted (· ≤ ·)
    ∧ List.Perm (get_indexed_documents (some db))
        ((db.docstore.map (fun d => d.metadata.source.getD "Unknown")).dedup.map basename)
    ∧ get_indexed_documents none = [] :=
  ⟨List.sorted_insertionSort _ _, List.perm_insertionSort _ _, rfl⟩

/-- Two adjacent characters are not both whitespace. -/
def noTwoWs (a b : Char) : Prop := ¬ (isPySpace a = true ∧ isPySpace b = true)

/-- The spec's description of normalized chunk text: every whitespace
character is a single plain space, no two adjacent whitespace characters
(runs are collapsed), and no leading or trailing whitespace. -/
def IsNormalized (l : List Char) : Prop :=
  (∀ c ∈ l, isPySpace c = true → c = ' ')
  ∧ l.Chain' noTwoWs
  ∧ (∀ c, l.head? = some c → isPySpace c = false)
  ∧ (∀ c, l.getLast? = some c → isPySpace c = false)

theorem mem_subWS_space (l : List Char) :
    ∀ c ∈ subWS l, isPySpace c = true → c = ' ' := by
  induction l with
  | nil => intro c hc; cases hc
  | cons a as ih =>
    intro c hc hcs
    rw [subWS] at hc
    by_cases ha : isPySpace a = true
    · rw [if_pos ha] at hc
      rcases h : subWS as with _ | ⟨d, rest⟩
      · rw [h] at hc
        simp at hc
        exact hc
      · rw [h] at hc
        have hc' : c ∈ (if isPySpace d = true then d :: rest else ' ' :: d :: rest) := hc
        by_cases hd : isPySpace d = true
        · rw [if_pos hd] at hc'
          exact ih c (by rw [h]; exact hc') hcs
        · rw [if_neg hd] at hc'
          rcases List.mem_cons.mp hc' with rfl | hc2
          · rfl
          · exact ih c (by rw [h]; exact hc2) hcs
    · rw [if_neg ha] at hc
      rcases List.mem_cons.mp hc with rfl | hc2
      · exact absurd hcs ha
      · exact ih c hc2 hcs

theorem chain'_subWS (l : List Char) : (subWS l).Chain' noTwoWs := by
  induction l with
  | nil => simp [subWS]
  | cons a as ih =>
    rw [subWS]
    by_cases ha : isPySpace a = true
    · rw [if_pos ha]
      rcases h : subWS as with _ | ⟨d, rest⟩
      · simp
      · rw [h] at ih
        show List.Chain' noTwoWs (if isPySpace d = true then d :: rest else ' ' :: d :: rest)
        by_cases hd : isPySpace d = true
        · rw [if_pos hd]
          exact ih
        · rw [if_neg hd]
          refine List.chain'_cons'.mpr ⟨?_, ih⟩
          intro y hy
          simp only [List.head?_cons, Option.mem_def, Option.some.injEq] at hy
          subst hy
          exact fun hsp => hd hsp.2
    · rw [if_neg ha]
      refine List.chain'_cons'.mpr ⟨?_, ih⟩
      intro y hy
      exact fun hsp => ha hsp.1

theorem head?_dropWhile_false (p : Char → Bool) (l : List Char) :
    ∀ c, (l.dropWhile p).head? = some c → p c = false := by
  induction l with
  | nil => intro c h; cases h
  | cons a as ih =>
    intro c h
    by_cases ha : p a = true
    · rw [List.dropWhile_cons_of_pos ha] at h
      exact ih c h
    · rw [List.dropWhile_cons_of_neg ha] at h
      simp only [List.head?_cons, Option.some.injEq] at h
      subst h
      simpa using ha

theorem getLast?_of_suffix {l1 l2 : List Char} (h : l1 <:+ l2) (hne : l1 ≠ []) :
    l2.getLast? = l1.getLast? := by
  obtain ⟨t, rfl⟩ := h
  rcases hx : l1.getLast? with _ | x
  · rw [List.getLast?_eq_none_iff] at hx
    exact absurd hx hne
  · rw [List.getLast?_append, hx]
    rfl

theorem chain'_reverse_noTwoWs {l : List Char} (h : l.Chain' noTwoWs) :
    l.reverse.Chain' noTwoWs := by
  rw [List.chain'_reverse]
  exact h.imp (fun a b hab hx => hab ⟨hx.2, hx.1⟩)

theorem pyStrip_subset (l : List Char) : ∀ c ∈ pyStrip l, c ∈ l := by
  intro c hc
  unfold pyStrip at hc
  rw [List.mem_reverse] at hc
  have h1 := (List.dropWhile_sublist _).subset hc
  rw [List.mem_reverse] at h1
  exact (List.dropWhile_sublist _).subset h1

theorem pyStrip_chain' {l : List Char} (h : l.Chain' noTwoWs) :
    (pyStrip l).Chain' noTwoWs :=
  chain'_reverse_noTwoWs
    ((chain'_reverse_noTwoWs (h.suffix (List.dropWhile_suffix _))).suffix
      (List.dropWhile_suffix _))

theorem clean_text_normalized (s : String) : IsNormalized (clean_text s).data := by
  show IsNormalized (pyStrip (subWS s.data))
  refine ⟨?_, pyStrip_chain' (chain'_subWS s.data), ?_, ?_⟩
  · intro c hc hs
    exact mem_subWS_space s.data c (pyStrip_subset _ c hc) hs
  · intro c hc
    unfold pyStrip at hc
    rw [List.head?_reverse] at hc
    have hne : ((subWS s.data).dropWhile isPySpace).reverse.dropWhile isPySpace ≠ [] := by
      intro h0
      rw [h0] at hc
      cases hc
    have hsuf := getLast?_of_suffix (List.dropWhile_suffix isPySpace) hne
    rw [← hsuf, List.getLast?_reverse] at hc
    exact head?_dropWhile_false _ _ c hc
  · intro c hc
    unfold pyStrip at hc
    rw [List.getLast?_reverse] at hc
    exact head?_dropWhile_false _ _ c hc

theorem dropWhile_eq_self_of_head {p : Char → Bool} {l : List Char}
    (h : ∀ c, l.head? = some c → p c = false) : l.dropWhile p = l := by
  rcases l with _ | ⟨a, as⟩
  · rfl
  · have ha := h a rfl
    rw [List.dropWhile_cons_of_neg (by simp [ha])]

theorem pyStrip_eq_self {l : List Char}
    (hh : ∀ c, l.head? = some c → isPySpace c = false)
    (hl : ∀ c, l.getLast? = some c → isPySpace c = false) : pyStrip l = l := by
  unfold pyStrip
  rw [dropWhile_eq_self_of_head hh]
  rw [dropWhile_eq_self_of_head (fun c hc => hl c (by rwa [List.head?_reverse] at hc))]
  exact List.reverse_reverse l

theorem subWS_eq_self {l : List Char}
    (hall : ∀ c ∈ l, isPySpace c = true → c = ' ')
    (hch : l.Chain' noTwoWs) : subWS l = l := by
  induction l with
  | nil => rfl
  | cons a as ih =>
    have has : subWS as = as :=
      ih (fun c hc => hall c (List.mem_cons_of_mem a hc)) hch.tail
    rw [subWS, has]
    by_cases ha : isPySpace a = true
    · have ha' : a = ' ' := hall a (List.mem_cons_self a as) ha
      subst ha'
      rcases as with _ | ⟨d, rest⟩
      · rw [if_pos ha]
      · have hd : ¬ (isPySpace d = true) :=
          fun hdt => (List.chain'_cons.mp hch).1 ⟨ha, hdt⟩
        rw [if_pos ha]
        show (if isPySpace d = true then d :: rest else ' ' :: d :: rest) = ' ' :: d :: rest
        rw [if_neg hd]
    · rw [if_neg ha]

theorem clean_text_eq_self {s : String} (h : IsNormalized s.data) : clean_text s = s := by
  obtain ⟨h1, h2, h3, h4⟩ := h
  show (⟨pyStrip (subWS s.data)⟩ : String) = s
  rw [subWS_eq_self h1 h2, pyStrip_eq_self h3 h4]

/-- C10: `clean_text` is idempotent: normalizing already-normalized text is a
no-op, so `clean_text (clean_text t) = clean_text t` for every string. -/
theorem C10_clean_text_idempotent (s : String) :
    clean_text (clean_text s) = clean_text s :=
  clean_text_eq_self (clean_text_normalized s)

/-- C5: for every splitter and every sequence of document records, every
chunk produced by `chunk_documents` has normalized text: whitespace runs
collapsed to single spaces and no leading or trailing whitespace. -/
theorem C5_chunk_text_normalized (splitText : String → List String)
    (documents : List Document) (c : Document)
    (hc : c ∈ chunk_documents splitText documents) :
    IsNormalized c.page_content.data := by
  simp only [chunk_documents, split_documents, List.mem_map] at hc
  obtain ⟨c0, _, rfl⟩ := hc
  exact clean_text_normalized _

/-- The concrete chunk produced from `docA` by the identity splitter. -/
def chunkW : Document := ⟨"alpha text", docA.metadata⟩

theorem C5_chunk_text_normalized_witness :
    (chunkW ∈ chunk_documents splitOne [docA])
    ∧ IsNormalized chunkW.page_content.data :=
  ⟨by decide, C5_chunk_text_normalized splitOne [docA] chunkW (by decide)⟩

/-- C9: every chunk produced by `chunk_documents` carries the metadata of its
originating document record unchanged (source path and page number), and only
the text field is rewritten (to the cleaned text of a split piece). -/
theorem C9_chunk_metadata_inherited (splitText : String → List String)
    (documents : List Document) (c : Document)
    (hc : c ∈ chunk_documents splitText documents) :
    ∃ d ∈ documents, c.metadata = d.metadata
      ∧ ∃ t ∈ splitText d.page_content, c.page_content = clean_text t := by
  simp only [chunk_documents, split_documents, List.mem_map, List.mem_flatMap] at hc
  obtain ⟨c0, ⟨d, hd, ⟨t, ht, rfl⟩⟩, rfl⟩ := hc
  exact ⟨d, hd, rfl, t, ht, rfl⟩

theorem C9_chunk_metadata_inherited_witness :
    (chunkW ∈ chunk_documents splitOne [docA])
    ∧ ∃ d ∈ [docA], chunkW.metadata = d.metadata
        ∧ ∃ t ∈ splitOne d.page_content, chunkW.page_content = clean_text t :=
  ⟨by decide, C9_chunk_metadata_inherited splitOne [docA] chunkW (by decide)⟩
